import Mathlib

/-!
Verification development for the incremental task scheduler and
dependency-graph execution engine of a monorepo build orchestrator
(Rush).  The repository snapshot ships the unit tests, interface
declarations and callers of the core engine, but not the engine
sources themselves; every definition below is therefore modelled from
the design specification (spec.md), corroborated by the unit tests
present in the tree (ProjectChangeAnalyzer tests, PackageChangeAnalyzer
tests).

Contents:
  1. ProjectChangeAnalyzer model: per-project dependency file sets,
     lazy snapshot caching, deterministic project state hashes.
  2. CacheKeyBuilder model: recursive, order-independent operation
     fingerprints.
  3. OperationGraph construction with cycle detection
     (GraphCycleError).
  4. OperationExecutor: a small-step scheduler semantics with status
     transitions, in-degree counters, bounded concurrency and the
     failure (Blocked/Skipped) cascade.
-/

/-! ## Section 1: ProjectChangeAnalyzer -/

/-- Modelled from the spec: a project as the ProjectChangeAnalyzer sees it
(the `RushConfigurationProject` sources are not in the tree): a package
name and a repository-relative folder. -/
structure RushProject where
  packageName : String
  projectRelativeFolder : String
deriving Repr, DecidableEq

/-- Modelled from the spec: the slice of `RushConfiguration` consumed by the
ProjectChangeAnalyzer (the configuration loader is an external
collaborator): the project list and the committed shrinkwrap path
(`getCommittedShrinkwrapFilename`). -/
structure RushConfig where
  projects : List RushProject
  shrinkwrapFile : String
deriving Repr, DecidableEq

/-- A repository file-hash snapshot: repository-relative path paired with a
content hash, as produced by the external file-hash provider. -/
abbrev Snapshot := List (String × String)

/-- A path lies under a folder when the folder followed by the separator is
a prefix of the path. -/
def isUnderFolder (folder path : String) : Bool :=
  List.isPrefixOf (folder.data ++ ['/']) path.data

/-- A repository-relative path re-expressed relative to a project folder
(the folder plus separator is stripped). -/
def projectRelativePath (folder path : String) : String :=
  ⟨path.data.drop (folder.data.length + 1)⟩

/-- Modelled from the spec: the per-file acceptance test of
`_tryGetProjectDependencies` (its implementation is not in the tree; the
behaviour follows the spec's ProjectState description and the unit tests):
a snapshot entry belongs to a project's dependency set when it lies under
the project folder and passes the optional project file filter — the
filter sees the path relative to the project folder — or when it is the
committed shrinkwrap file, which is a dependency of every project and is
not subject to the filter. -/
def acceptsFile (cfg : RushConfig) (proj : RushProject)
    (filter : Option (String → Bool)) (e : String × String) : Bool :=
  (isUnderFolder proj.projectRelativeFolder e.1 &&
    (match filter with
     | none => true
     | some f => f (projectRelativePath proj.projectRelativeFolder e.1)))
  || (e.1 == cfg.shrinkwrapFile)

/-- Modelled from the spec: the dependency file set of one project, carved
out of the repository snapshot. -/
def projectDepsOf (cfg : RushConfig) (snapshot : Snapshot) (proj : RushProject)
    (filter : Option (String → Bool)) : Snapshot :=
  snapshot.filter (acceptsFile cfg proj filter)

/-- Modelled from the spec: the ProjectChangeAnalyzer's persistent state —
the configuration plus the lazily computed repository snapshot (`_data`),
absent until the first query. -/
structure ProjectChangeAnalyzer where
  rushConfiguration : RushConfig
  data : Option Snapshot
deriving Repr, DecidableEq

/-- A freshly constructed analyzer: no snapshot computed yet. -/
def ProjectChangeAnalyzer.new (cfg : RushConfig) : ProjectChangeAnalyzer :=
  ⟨cfg, none⟩

/-- Outcome of one analyzer query: the result, the updated analyzer state
and how many times the repository-state provider (`_getRepoDeps`) was
invoked during the call. -/
structure QueryResult where
  result : Except String Snapshot
  state : ProjectChangeAnalyzer
  providerCalls : Nat
deriving Repr

/-- Modelled from the spec: `_tryGetProjectDependencies`.  On first use the
repository snapshot is obtained from the provider and cached; later calls
reuse the cached snapshot.  An unknown project name is a validation error
— the analyzer must propagate the failure rather than return an empty
map, since an empty map would be indistinguishable from "no files
changed". -/
def ProjectChangeAnalyzer.tryGetProjectDependencies
    (provider : Unit → Snapshot) (st : ProjectChangeAnalyzer)
    (projectName : String) (filter : Option (String → Bool)) : QueryResult :=
  let loaded : Snapshot × ProjectChangeAnalyzer × Nat :=
    match st.data with
    | some d => (d, st, 0)
    | none =>
      let d := provider ()
      (d, { st with data := some d }, 1)
  match st.rushConfiguration.projects.find?
      (fun p => p.packageName == projectName) with
  | none =>
    ⟨.error ("Project not found: " ++ projectName), loaded.2.1, loaded.2.2⟩
  | some p =>
    ⟨.ok (projectDepsOf st.rushConfiguration loaded.1 p filter),
      loaded.2.1, loaded.2.2⟩

/-- Canonical serialization of a dependency file set: each entry rendered
as `path:hash`, the rendered lines sorted, then joined. -/
def serializeDeps (deps : Snapshot) : String :=
  String.intercalate "\n"
    ((deps.map (fun e => e.1 ++ ":" ++ e.2)).mergeSort (fun a b => decide (a ≤ b)))

/-- Modelled from the spec: `_tryGetProjectStateHash` — the deterministic
project state hash is a digest of the sorted serialization of the
project's dependency file set.  The digest itself (SHA-1 in the product)
is kept abstract as a parameter. -/
def projectStateHashOf (digest : String → String) (cfg : RushConfig)
    (snapshot : Snapshot) (proj : RushProject) : String :=
  digest (serializeDeps (projectDepsOf cfg snapshot proj none))

/-- Run a sequence of analyzer queries (project name, optional filter),
threading the analyzer state and totalling provider invocations. -/
def runQueries (provider : Unit → Snapshot) (st : ProjectChangeAnalyzer) :
    List (String × Option (String → Bool)) → ProjectChangeAnalyzer × Nat
  | [] => (st, 0)
  | q :: qs =>
    let r := st.tryGetProjectDependencies provider q.1 q.2
    let rest := runQueries provider r.state qs
    (rest.1, r.providerCalls + rest.2)

/-! ### Analyzer lemmas -/

/-- Sorting strings is invariant under permutation of the input. -/
theorem mergeSortStrings_eq_of_perm (l₁ l₂ : List String) (h : l₁.Perm l₂) :
    l₁.mergeSort (fun a b => decide (a ≤ b)) = l₂.mergeSort (fun a b => decide (a ≤ b)) := by
  apply List.eq_of_perm_of_sorted (r := (· ≤ · : String → String → Prop))
  · exact ((List.mergeSort_perm l₁ _).trans h).trans (List.mergeSort_perm l₂ _).symm
  · have := @List.sorted_mergeSort String (fun a b => decide (a ≤ b))
      (fun a b c h₁ h₂ => by simp at h₁ h₂ ⊢; exact le_trans h₁ h₂)
      (fun a b => by simp [le_total]) l₁
    simpa [List.Sorted] using this
  · have := @List.sorted_mergeSort String (fun a b => decide (a ≤ b))
      (fun a b c h₁ h₂ => by simp at h₁ h₂ ⊢; exact le_trans h₁ h₂)
      (fun a b => by simp [le_total]) l₂
    simpa [List.Sorted] using this

/-- The canonical serialization is invariant under permutation of the
dependency set. -/
theorem serializeDeps_eq_of_perm (d₁ d₂ : Snapshot) (h : d₁.Perm d₂) :
    serializeDeps d₁ = serializeDeps d₂ := by
  unfold serializeDeps
  exact congrArg _ (mergeSortStrings_eq_of_perm _ _ (h.map _))

/-- Permuting the snapshot permutes every project's dependency set. -/
theorem projectDepsOf_perm (cfg : RushConfig) (s₁ s₂ : Snapshot)
    (proj : RushProject) (filter : Option (String → Bool)) (h : s₁.Perm s₂) :
    (projectDepsOf cfg s₁ proj filter).Perm (projectDepsOf cfg s₂ proj filter) :=
  h.filter _

/-- A query on an analyzer that already holds a snapshot leaves the state
unchanged and does not invoke the provider. -/
theorem tryGet_of_data_some (provider : Unit → Snapshot)
    (st : ProjectChangeAnalyzer) (name : String) (filter : Option (String → Bool))
    (d : Snapshot) (h : st.data = some d) :
    (st.tryGetProjectDependencies provider name filter).state = st ∧
    (st.tryGetProjectDependencies provider name filter).providerCalls = 0 := by
  unfold ProjectChangeAnalyzer.tryGetProjectDependencies
  rw [h]
  cases st.rushConfiguration.projects.find? (fun p => p.packageName == name) <;> simp

/-- The first query computes the snapshot from the provider, stores it, and
invokes the provider once. -/
theorem tryGet_of_data_none (provider : Unit → Snapshot)
    (st : ProjectChangeAnalyzer) (name : String) (filter : Option (String → Bool))
    (h : st.data = none) :
    (st.tryGetProjectDependencies provider name filter).state =
      { st with data := some (provider ()) } ∧
    (st.tryGetProjectDependencies provider name filter).providerCalls = 1 := by
  unfold ProjectChangeAnalyzer.tryGetProjectDependencies
  rw [h]
  cases st.rushConfiguration.projects.find? (fun p => p.packageName == name) <;> simp

/-- Once the snapshot is cached, any further query sequence performs zero
provider invocations and never changes the state. -/
theorem runQueries_of_data_some (provider : Unit → Snapshot)
    (st : ProjectChangeAnalyzer) (d : Snapshot) (h : st.data = some d) :
    ∀ qs : List (String × Option (String → Bool)),
      runQueries provider st qs = (st, 0) := by
  intro qs
  induction qs with
  | nil => rfl
  | cons q qs ih =>
    obtain ⟨hs, hc⟩ := tryGet_of_data_some provider st q.1 q.2 d h
    simp only [runQueries, hs, hc, ih]

/-- A second query, regardless of which project (and which filter) the
first query was for, returns exactly the result of querying directly:
the cached snapshot is the one the provider produced, and the
configuration is untouched. -/
theorem tryGet_second_query_result (provider : Unit → Snapshot) (cfg : RushConfig)
    (name₁ : String) (f₁ : Option (String → Bool))
    (name₂ : String) (f₂ : Option (String → Bool)) :
    (((ProjectChangeAnalyzer.new cfg).tryGetProjectDependencies provider name₁ f₁).state.tryGetProjectDependencies
        provider name₂ f₂).result =
      ((ProjectChangeAnalyzer.new cfg).tryGetProjectDependencies provider name₂ f₂).result := by
  obtain ⟨hs, _⟩ := tryGet_of_data_none provider (ProjectChangeAnalyzer.new cfg) name₁ f₁ rfl
  rw [hs]
  cases hfind : cfg.projects.find? (fun p => p.packageName == name₂) <;>
    simp [ProjectChangeAnalyzer.tryGetProjectDependencies, ProjectChangeAnalyzer.new, hfind]

/-! ### Sample data (mirroring the repository's unit tests) -/

/-- The `apple` project from the ProjectChangeAnalyzer unit tests. -/
def appleProj : RushProject := ⟨"apple", "apps/apple"⟩

/-- Configuration with the `apple` project and the committed shrinkwrap
path used by the unit tests. -/
def sampleCfg : RushConfig := ⟨[appleProj], "common/config/rush/pnpm-lock.yaml"⟩

/-- The apple project's files, first insertion order. -/
def sampleSnapA : Snapshot :=
  [("apps/apple/core.js", "a101"), ("apps/apple/juice.js", "e333"),
   ("apps/apple/slices.js", "a102")]

/-- The apple project's files, a different insertion order. -/
def sampleSnapB : Snapshot :=
  [("apps/apple/slices.js", "a102"), ("apps/apple/core.js", "a101"),
   ("apps/apple/juice.js", "e333")]

/-- A repository-state provider handing back the sample snapshot. -/
def sampleProvider : Unit → Snapshot := fun _ => sampleSnapA

/-- A project file filter rejecting every file. -/
def rejectAllFilter : String → Bool := fun _ => false

/-- A snapshot holding only the committed shrinkwrap file. -/
def shrinkSnap : Snapshot := [("common/config/rush/pnpm-lock.yaml", "ffff")]

/-! ### Claim theorems: ProjectChangeAnalyzer -/

/-- C4: the project state hash is deterministic and depends only on the
set of (path, content-hash) pairs of the project's dependency files: two
repository snapshots holding the same entries in different insertion
orders produce the same state hash, for every digest function. -/
theorem projectStateHash_deterministic_order_independent
    (digest : String → String) (cfg : RushConfig) (proj : RushProject)
    (s₁ s₂ : Snapshot) (h : s₁.Perm s₂) :
    projectStateHashOf digest cfg s₁ proj = projectStateHashOf digest cfg s₂ proj := by
  unfold projectStateHashOf
  exact congrArg digest
    (serializeDeps_eq_of_perm _ _ (projectDepsOf_perm cfg s₁ s₂ proj none h))

/-- Witness for C4 at the unit tests' data: the two insertion orders of
the apple project's files are a permutation of each other and produce the
same state hash. -/
theorem projectStateHash_deterministic_order_independent_witness :
    sampleSnapA.Perm sampleSnapB ∧
    projectStateHashOf id sampleCfg sampleSnapA appleProj =
      projectStateHashOf id sampleCfg sampleSnapB appleProj :=
  ⟨by decide,
   projectStateHash_deterministic_order_independent id sampleCfg appleProj
     sampleSnapA sampleSnapB (by decide)⟩

/-- C5: the dependency file set of a project consists of exactly the
snapshot entries whose paths lie under the project's folder plus the
committed shrinkwrap entry when the snapshot holds one; entries of other
projects or unrelated folders are never included. -/
theorem projectDeps_mem_iff (cfg : RushConfig) (snap : Snapshot)
    (proj : RushProject) (e : String × String) :
    e ∈ projectDepsOf cfg snap proj none ↔
      e ∈ snap ∧ (isUnderFolder proj.projectRelativeFolder e.1 = true ∨
        e.1 = cfg.shrinkwrapFile) := by
  simp [projectDepsOf, List.mem_filter, acceptsFile]

/-- C6: querying the dependency map of a project that is not part of the
loaded configuration produces an error, never a successful (empty or
otherwise) dependency map. -/
theorem tryGetProjectDependencies_unknown_project_errors
    (provider : Unit → Snapshot) (st : ProjectChangeAnalyzer)
    (projectName : String) (filter : Option (String → Bool))
    (h : ∀ p ∈ st.rushConfiguration.projects, p.packageName ≠ projectName) :
    (∃ msg, (st.tryGetProjectDependencies provider projectName filter).result =
      .error msg) ∧
    ∀ m, (st.tryGetProjectDependencies provider projectName filter).result ≠ .ok m := by
  have hf : st.rushConfiguration.projects.find?
      (fun p => p.packageName == projectName) = none := by
    rw [List.find?_eq_none]
    intro p hp
    simpa using h p hp
  unfold ProjectChangeAnalyzer.tryGetProjectDependencies
  rw [hf]
  exact ⟨⟨_, rfl⟩, by simp⟩

/-- Witness for C6: asking for the non-existent project `carrot` errors
out. -/
theorem tryGetProjectDependencies_unknown_project_errors_witness :
    (∀ p ∈ (ProjectChangeAnalyzer.new sampleCfg).rushConfiguration.projects,
      p.packageName ≠ "carrot") ∧
    ((∃ msg, ((ProjectChangeAnalyzer.new sampleCfg).tryGetProjectDependencies
        sampleProvider "carrot" none).result = .error msg) ∧
      ∀ m, ((ProjectChangeAnalyzer.new sampleCfg).tryGetProjectDependencies
        sampleProvider "carrot" none).result ≠ .ok m) :=
  ⟨by decide,
   tryGetProjectDependencies_unknown_project_errors sampleProvider
     (ProjectChangeAnalyzer.new sampleCfg) "carrot" none (by decide)⟩

/-- C9: a freshly constructed analyzer holds no snapshot; across any
non-empty sequence of queries the repository-state provider is invoked
exactly once; a second query leaves the analyzer state untouched, makes
no provider call, and a repeated query for the same project returns the
very result computed from the cached snapshot. -/
theorem analyzer_lazy_caching (cfg : RushConfig) (provider : Unit → Snapshot) :
    (ProjectChangeAnalyzer.new cfg).data = none ∧
    (∀ qs : List (String × Option (String → Bool)), qs ≠ [] →
      (runQueries provider (ProjectChangeAnalyzer.new cfg) qs).2 = 1) ∧
    (∀ (name₁ name₂ : String) (f₁ f₂ : Option (String → Bool)),
      (((ProjectChangeAnalyzer.new cfg).tryGetProjectDependencies provider name₁
          f₁).state.tryGetProjectDependencies provider name₂ f₂).state =
        ((ProjectChangeAnalyzer.new cfg).tryGetProjectDependencies provider name₁
          f₁).state ∧
      (((ProjectChangeAnalyzer.new cfg).tryGetProjectDependencies provider name₁
          f₁).state.tryGetProjectDependencies provider name₂ f₂).providerCalls = 0) ∧
    (∀ (name : String) (f : Option (String → Bool)),
      (((ProjectChangeAnalyzer.new cfg).tryGetProjectDependencies provider name
          f).state.tryGetProjectDependencies provider name f).result =
        ((ProjectChangeAnalyzer.new cfg).tryGetProjectDependencies provider name
          f).result) := by
  refine ⟨rfl, ?_, ?_, ?_⟩
  · intro qs hqs
    match qs with
    | [] => exact absurd rfl hqs
    | q :: qs =>
      obtain ⟨hs, hc⟩ :=
        tryGet_of_data_none provider (ProjectChangeAnalyzer.new cfg) q.1 q.2 rfl
      have hrest := runQueries_of_data_some provider
        { ProjectChangeAnalyzer.new cfg with data := some (provider ()) }
        (provider ()) rfl qs
      simp only [runQueries, hs, hc, hrest]
  · intro name₁ name₂ f₁ f₂
    obtain ⟨hs, _⟩ :=
      tryGet_of_data_none provider (ProjectChangeAnalyzer.new cfg) name₁ f₁ rfl
    rw [hs]
    exact tryGet_of_data_some provider _ name₂ f₂ (provider ()) rfl
  · intro name f
    exact tryGet_second_query_result provider cfg name f name f

/-- Witness for C9: a single query against the sample configuration makes
exactly one provider call. -/
theorem analyzer_lazy_caching_witness :
    (runQueries sampleProvider (ProjectChangeAnalyzer.new sampleCfg)
      [("apple", none)]).2 = 1 :=
  (analyzer_lazy_caching sampleCfg sampleProvider).2.1 [("apple", none)]
    (by simp)

/-- C10 counterexample: with a filter that rejects every file, the
committed shrinkwrap entry is still included in the returned dependency
map although it neither lies under the project's folder nor is accepted
by the filter — so "included iff under the folder and accepted by the
filter" is false as stated. -/
theorem projectDeps_filter_iff_counterexample :
    ("common/config/rush/pnpm-lock.yaml", "ffff") ∈
      projectDepsOf sampleCfg shrinkSnap appleProj (some rejectAllFilter) ∧
    isUnderFolder appleProj.projectRelativeFolder
      "common/config/rush/pnpm-lock.yaml" = false ∧
    rejectAllFilter (projectRelativePath appleProj.projectRelativeFolder
      "common/config/rush/pnpm-lock.yaml") = false := by
  decide

/-- C10 (amended): a snapshot file is included in the filtered dependency
map iff it lies under the project's folder and the filter accepts its
path expressed relative to the project folder, or it is the committed
shrinkwrap entry (which is included regardless of the filter); and a
filter supplied for one project's query never affects the result computed
for another query. -/
theorem projectDeps_filter_mem_iff (cfg : RushConfig) (snap : Snapshot)
    (proj : RushProject) (f : String → Bool) (e : String × String)
    (provider : Unit → Snapshot) (name₁ name₂ : String)
    (f₁ : String → Bool) (f₂ : Option (String → Bool)) :
    (e ∈ projectDepsOf cfg snap proj (some f) ↔
      e ∈ snap ∧ ((isUnderFolder proj.projectRelativeFolder e.1 = true ∧
        f (projectRelativePath proj.projectRelativeFolder e.1) = true) ∨
        e.1 = cfg.shrinkwrapFile)) ∧
    (((ProjectChangeAnalyzer.new cfg).tryGetProjectDependencies provider name₁
        (some f₁)).state.tryGetProjectDependencies provider name₂ f₂).result =
      ((ProjectChangeAnalyzer.new cfg).tryGetProjectDependencies provider name₂
        f₂).result := by
  constructor
  · simp [projectDepsOf, List.mem_filter, acceptsFile, Bool.and_eq_true]
  · exact tryGet_second_query_result provider cfg name₁ (some f₁) name₂ f₂

/-! ## Section 2: CacheKeyBuilder -/

/-- Modelled from the spec: the inputs the CacheKeyBuilder reads (the
builder's sources are not in the tree).  Operations are indexed 0..n-1;
each carries an identity string (project name + phase name), a phase
configuration hash, a project state hash and the list of its upstream
Operations in insertion order. -/
structure FPGraph where
  n : Nat
  identity : Nat → String
  phaseConfigHash : Nat → String
  projectStateHash : Nat → String
  upstream : Nat → List Nat

/-- Modelled from the spec: the CacheKeyBuilder's fingerprint function
`fingerprint(op) = hash(phaseConfigHash ++ projectStateHash ++
sortedJoin(fingerprint(u) for u in op.upstream))`, upstream contributions
sorted by Operation identity string before concatenation.  The digest is
an abstract parameter; recursion is fuelled (any fuel at least the graph's
depth computes the real fingerprint). -/
def fingerprint (digest : String → String) (g : FPGraph) : Nat → Nat → String
  | 0, _ => ""
  | fuel + 1, i =>
    let toks := (g.upstream i).map
      (fun u => g.identity u ++ ":" ++ fingerprint digest g fuel u)
    digest (g.phaseConfigHash i ++ "|" ++ g.projectStateHash i ++ "|" ++
      String.intercalate "," (toks.mergeSort (fun a b => decide (a ≤ b))))

/-- C3: the fingerprint of an Operation is a function of exactly the phase
configuration hash, the project state hash and the multiset of upstream
contributions: two graphs agreeing on those inputs — with the upstream
sets supplied in arbitrary insertion orders — give every Operation the
identical fingerprint, for every digest; in particular identical inputs
give identical values. -/
theorem fingerprint_deterministic_order_independent
    (digest : String → String) (g₁ g₂ : FPGraph)
    (hid : ∀ k, g₁.identity k = g₂.identity k)
    (hcfg : ∀ k, g₁.phaseConfigHash k = g₂.phaseConfigHash k)
    (hst : ∀ k, g₁.projectStateHash k = g₂.projectStateHash k)
    (hup : ∀ k, (g₁.upstream k).Perm (g₂.upstream k)) :
    ∀ fuel i, fingerprint digest g₁ fuel i = fingerprint digest g₂ fuel i := by
  intro fuel
  induction fuel with
  | zero => intro i; rfl
  | succ fuel ih =>
    intro i
    have hfun : (fun u => g₁.identity u ++ ":" ++ fingerprint digest g₁ fuel u) =
        (fun u => g₂.identity u ++ ":" ++ fingerprint digest g₂ fuel u) :=
      funext fun u => by rw [hid u, ih u]
    have htoks : ((g₁.upstream i).map
          (fun u => g₁.identity u ++ ":" ++ fingerprint digest g₁ fuel u)).Perm
        ((g₂.upstream i).map
          (fun u => g₂.identity u ++ ":" ++ fingerprint digest g₂ fuel u)) := by
      rw [hfun]
      exact (hup i).map _
    show digest _ = digest _
    rw [hcfg i, hst i, mergeSortStrings_eq_of_perm _ _ htoks]

/-- Identity strings for the three-operation fingerprint example. -/
def fpIdent : Nat → String
  | 0 => "app:build"
  | 1 => "lib:build"
  | 2 => "core:build"
  | _ => ""

/-- Project state hashes for the fingerprint example. -/
def fpState : Nat → String
  | 0 => "s0"
  | 1 => "s1"
  | 2 => "s2"
  | _ => ""

/-- Upstream sets of the fingerprint example, first insertion order:
operation 0 depends on 1 and 2. -/
def fpUpA : Nat → List Nat
  | 0 => [1, 2]
  | _ => []

/-- Upstream sets of the fingerprint example, opposite insertion order. -/
def fpUpB : Nat → List Nat
  | 0 => [2, 1]
  | _ => []

/-- Fingerprint example graph, first insertion order. -/
def fpGraphA : FPGraph := ⟨3, fpIdent, fun _ => "cfg", fpState, fpUpA⟩

/-- Fingerprint example graph, opposite insertion order. -/
def fpGraphB : FPGraph := ⟨3, fpIdent, fun _ => "cfg", fpState, fpUpB⟩

/-- Witness for C3: the two insertion orders of operation 0's upstream set
are permutations and every fingerprint agrees between the two graphs. -/
theorem fingerprint_deterministic_order_independent_witness :
    (fpGraphA.upstream 0).Perm (fpGraphB.upstream 0) ∧
    ∀ fuel i, fingerprint id fpGraphA fuel i = fingerprint id fpGraphB fuel i :=
  ⟨by decide,
   fingerprint_deterministic_order_independent id fpGraphA fpGraphB
     (fun _ => rfl) (fun _ => rfl) (fun _ => rfl)
     (fun k => by
       rcases k with _ | n
       · decide
       · exact List.Perm.refl _)⟩

/-! ## Section 3: OperationGraph construction and cycle detection -/

/-- Modelled from the spec: a Phase declaration (the phase configuration
sources are not in the tree) — name, same-project phase-dependency names
and the depends-on-upstream flag. -/
structure PhaseDecl where
  name : String
  phaseDependencies : List String
  dependsOnUpstream : Bool
deriving Repr, DecidableEq

/-- Modelled from the spec: a Project declaration — name, declared
dependency project names and the phases it selects. -/
structure ProjectDecl where
  name : String
  dependencyProjects : List String
  selectedPhases : List String
deriving Repr, DecidableEq

/-- Graph-construction input: phase and project declarations. -/
structure BuildDecls where
  phases : List PhaseDecl
  projects : List ProjectDecl
deriving Repr, DecidableEq

/-- Index of the first occurrence of a key in a key list. -/
def listIndexOf : List (String × String) → String × String → Option Nat
  | [], _ => none
  | x :: xs, k => if x = k then some 0 else (listIndexOf xs k).map (· + 1)

/-- One Operation per (project name, selected phase name) pair, in
declaration order; an Operation is identified by its position here. -/
def buildOpKeys (decls : BuildDecls) : List (String × String) :=
  (decls.projects.map (fun p => p.selectedPhases.map (fun f => (p.name, f)))).flatten

/-- Number of Operations of the built graph. -/
def buildN (decls : BuildDecls) : Nat := (buildOpKeys decls).length

/-- Modelled from the spec: the upstream set of each built Operation —
intra-project edges from the phase's same-project phase-dependency list,
plus, when the phase is flagged depends-on-upstream, cross-project edges
to the same phase of every declared dependency project; an edge whose
endpoint is not an Operation (the dependency project does not select the
phase) is elided, and duplicate edges are deduplicated. -/
def builtUpstream (decls : BuildDecls) : Nat → List Nat := fun i =>
  let keys := buildOpKeys decls
  match keys[i]? with
  | none => []
  | some key =>
    match decls.phases.find? (fun ph => ph.name == key.2) with
    | none => []
    | some ph =>
      let intra := ph.phaseDependencies.filterMap
        (fun f1 => listIndexOf keys (key.1, f1))
      let cross :=
        if ph.dependsOnUpstream then
          match decls.projects.find? (fun pr => pr.name == key.1) with
          | none => []
          | some pr =>
            pr.dependencyProjects.filterMap
              (fun q => listIndexOf keys (q, key.2))
        else []
      (intra ++ cross).dedup

/-- One round of readiness elimination (Kahn-style): keep exactly the
vertices that still have an upstream vertex among the survivors. -/
def aliveStep (up : Nat → List Nat) (alive : List Nat) : List Nat :=
  alive.filter (fun i => (up i).any (fun j => decide (j ∈ alive)))

/-- Iterated elimination. -/
def aliveIter (up : Nat → List Nat) : Nat → List Nat → List Nat
  | 0, alive => alive
  | k + 1, alive => aliveIter up k (aliveStep up alive)

/-- The vertices surviving `n` elimination rounds over `0..n-1`. -/
def remainder (n : Nat) (up : Nat → List Nat) : List Nat :=
  aliveIter up n (List.range n)

/-- A nonempty vertex list is a cycle when every entry's successor is one
of its upstream vertices and the first entry is upstream of the last. -/
def IsCycleList (up : Nat → List Nat) (c : List Nat) : Prop :=
  c ≠ [] ∧ c.Chain' (fun x y => y ∈ up x) ∧
  ∀ a ∈ c.head?, ∀ b ∈ c.getLast?, a ∈ up b

/-- Walk the surviving vertices following upstream edges until a vertex
repeats; the walked segment from the first occurrence of the repeated
vertex is a cycle. -/
def walkCycle (up : Nat → List Nat) (R : List Nat) :
    Nat → Nat → List Nat → Option (List Nat)
  | 0, _, _ => none
  | fuel + 1, cur, path =>
    match ((up cur).filter (fun j => decide (j ∈ R))).head? with
    | none => none
    | some nxt =>
      if nxt ∈ path then some (path.dropWhile (fun x => decide (x ≠ nxt)))
      else walkCycle up R fuel nxt (path ++ [nxt])

/-- Modelled from the spec: the construction-time cycle check — eliminate
schedulable vertices, then walk the nonempty remainder to produce an
explicit cycle path. -/
def detectCycle (n : Nat) (up : Nat → List Nat) : Option (List Nat) :=
  match remainder n up with
  | [] => none
  | r :: _ => walkCycle up (remainder n up) (n + 1) r [r]

/-- Modelled from the spec: `GraphCycleError`, carrying the full cycle
path as an ordered list of Operation indices. -/
structure GraphCycleError where
  path : List Nat
deriving Repr, DecidableEq

/-- The validated Operation graph handed to the executor. -/
structure OperationGraphModel where
  n : Nat
  upstream : Nat → List Nat

/-- Modelled from the spec: graph construction — build the Operations and
their edges from the declarations, then fail with `GraphCycleError` if the
built dependency relation has a cycle, else hand the graph over. -/
def constructOperationGraph (decls : BuildDecls) :
    Except GraphCycleError OperationGraphModel :=
  match detectCycle (buildN decls) (builtUpstream decls) with
  | some c => .error ⟨c⟩
  | none => .ok ⟨buildN decls, builtUpstream decls⟩

/-! ### Cycle-detection lemmas -/

/-- Each elimination round keeps a sublist of the survivors. -/
theorem aliveStep_sublist (up : Nat → List Nat) (alive : List Nat) :
    (aliveStep up alive).Sublist alive :=
  List.filter_sublist alive

/-- Elimination leaves a fixed point fixed. -/
theorem aliveIter_of_fix (up : Nat → List Nat) (l : List Nat)
    (h : aliveStep up l = l) : ∀ k, aliveIter up k l = l := by
  intro k
  induction k with
  | zero => rfl
  | succ k ih => show aliveIter up k (aliveStep up l) = l; rw [h, ih]

/-- After as many rounds as there are vertices, elimination has reached a
fixed point. -/
theorem aliveIter_reaches_fix (up : Nat → List Nat) :
    ∀ (k : Nat) (l : List Nat),
      aliveStep up (aliveIter up k l) = aliveIter up k l ∨
      (aliveIter up k l).length ≤ l.length - k := by
  intro k
  induction k with
  | zero => intro l; right; simp [aliveIter]
  | succ k ih =>
    intro l
    show aliveStep up (aliveIter up k (aliveStep up l)) =
        aliveIter up k (aliveStep up l) ∨
      (aliveIter up k (aliveStep up l)).length ≤ l.length - (k + 1)
    by_cases hfix : aliveStep up l = l
    · left
      rw [hfix, aliveIter_of_fix up l hfix k, hfix]
    · rcases ih (aliveStep up l) with h | h
      · left; exact h
      · right
        have hsub := aliveStep_sublist up l
        have hlen : (aliveStep up l).length < l.length := by
          rcases Nat.lt_or_ge (aliveStep up l).length l.length with h' | h'
          · exact h'
          · exact absurd (hsub.eq_of_length (Nat.le_antisymm hsub.length_le h'))
              hfix
        omega

/-- The remainder of the elimination is a fixed point. -/
theorem remainder_fix (n : Nat) (up : Nat → List Nat) :
    aliveStep up (remainder n up) = remainder n up := by
  rcases aliveIter_reaches_fix up n (List.range n) with h | h
  · exact h
  · have hempty : remainder n up = [] := by
      apply List.eq_nil_of_length_eq_zero
      rw [List.length_range] at h
      show (aliveIter up n (List.range n)).length = 0
      omega
    rw [hempty]
    rfl

/-- Survivors are among the initial vertices. -/
theorem aliveIter_sublist (up : Nat → List Nat) :
    ∀ (k : Nat) (l : List Nat), (aliveIter up k l).Sublist l := by
  intro k
  induction k with
  | zero => intro l; exact List.Sublist.refl l
  | succ k ih =>
    intro l
    exact (ih (aliveStep up l)).trans (aliveStep_sublist up l)

/-- A vertex set in which every vertex keeps an upstream vertex in the set
survives every elimination round. -/
theorem survive_iter (up : Nat → List Nat) (S : List Nat)
    (hS : ∀ i ∈ S, ∃ j ∈ up i, j ∈ S) :
    ∀ (k : Nat) (l : List Nat), (∀ x ∈ S, x ∈ l) →
      ∀ x ∈ S, x ∈ aliveIter up k l := by
  intro k
  induction k with
  | zero => intro l h; exact h
  | succ k ih =>
    intro l h
    apply ih (aliveStep up l)
    intro x hx
    rw [aliveStep, List.mem_filter]
    refine ⟨h x hx, ?_⟩
    rw [List.any_eq_true]
    obtain ⟨j, hj, hjS⟩ := hS x hx
    exact ⟨j, hj, by simpa using h j hjS⟩

/-- Along a dependency chain that closes back into vertex `t`, every
vertex has an upstream successor that is on the chain or is `t`. -/
theorem chain_closed_succ (up : Nat → List Nat) (t : Nat) :
    ∀ (a : Nat) (rest : List Nat),
      List.Chain (fun x y => y ∈ up x) a rest →
      t ∈ up ((a :: rest).getLast (List.cons_ne_nil a rest)) →
      ∀ i ∈ a :: rest, ∃ j, j ∈ up i ∧ (j ∈ a :: rest ∨ j = t) := by
  intro a rest
  induction rest generalizing a with
  | nil =>
    intro _ hclose i hi
    rw [List.mem_singleton] at hi
    subst hi
    exact ⟨t, hclose, Or.inr rfl⟩
  | cons b rest' ih =>
    intro hchain hclose i hi
    rcases List.chain_cons.mp hchain with ⟨hab, hchain'⟩
    have hlast : (a :: b :: rest').getLast (List.cons_ne_nil a (b :: rest')) =
        (b :: rest').getLast (List.cons_ne_nil b rest') :=
      List.getLast_cons (List.cons_ne_nil b rest')
    rw [hlast] at hclose
    rcases List.mem_cons.mp hi with hia | hi'
    · subst hia
      exact ⟨b, hab, Or.inl (List.mem_cons_of_mem _ (List.mem_cons_self b rest'))⟩
    · obtain ⟨j, hj, hj'⟩ := ih b hchain' hclose i hi'
      refine ⟨j, hj, ?_⟩
      rcases hj' with hjm | hjt
      · exact Or.inl (List.mem_cons_of_mem _ hjm)
      · exact Or.inr hjt

/-- Every vertex of a cycle has an upstream successor on the cycle. -/
theorem cycle_succ_mem (up : Nat → List Nat) (c : List Nat)
    (hc : IsCycleList up c) : ∀ i ∈ c, ∃ j ∈ up i, j ∈ c := by
  obtain ⟨hne, hchain, hclose⟩ := hc
  rcases c with _ | ⟨a, rest⟩
  · exact absurd rfl hne
  · intro i hi
    have hchain' : List.Chain (fun x y => y ∈ up x) a rest := hchain
    have hcl : a ∈ up ((a :: rest).getLast (List.cons_ne_nil a rest)) :=
      hclose a (by simp) ((a :: rest).getLast (List.cons_ne_nil a rest))
        (by simp [List.getLast?_eq_getLast])
    obtain ⟨j, hj, hj'⟩ := chain_closed_succ up a a rest hchain' hcl i hi
    refine ⟨j, hj, ?_⟩
    rcases hj' with h | h
    · exact h
    · subst h; exact List.mem_cons_self _ _

/-- Every vertex of a cycle survives the full elimination (with edges
present only below the vertex count). -/
theorem cycle_subset_remainder (n : Nat) (up : Nat → List Nat)
    (hbound : ∀ i, n ≤ i → up i = []) (c : List Nat)
    (hc : IsCycleList up c) : ∀ x ∈ c, x ∈ remainder n up := by
  have hS := cycle_succ_mem up c hc
  apply survive_iter up c hS n (List.range n)
  intro x hx
  obtain ⟨j, hj, _⟩ := hS x hx
  rw [List.mem_range]
  by_contra hge
  rw [hbound x (Nat.le_of_not_lt hge)] at hj
  cases hj

/-- Dropping up to the first occurrence of a member yields a suffix that
starts with that member. -/
theorem dropWhile_ne_of_mem (a : Nat) :
    ∀ l : List Nat, a ∈ l →
      ∃ t, l.dropWhile (fun x => decide (x ≠ a)) = a :: t ∧
        (a :: t).IsSuffix l := by
  intro l
  induction l with
  | nil => intro h; cases h
  | cons b tl ih =>
    intro hmem
    by_cases hba : b = a
    · subst hba
      refine ⟨tl, ?_, List.suffix_refl _⟩
      simp [List.dropWhile_cons]
    · have hatl : a ∈ tl := by
        rcases List.mem_cons.mp hmem with h | h
        · exact absurd h.symm hba
        · exact h
      obtain ⟨t, ht, hsuf⟩ := ih hatl
      refine ⟨t, ?_, hsuf.trans (List.suffix_cons b tl)⟩
      rw [List.dropWhile_cons]
      simp only [ne_eq, decide_not]
      rw [if_pos (by simp [hba])]
      simpa using ht

/-- Whenever the walk returns a list, that list is a genuine cycle of the
upstream relation. -/
theorem walkCycle_sound (up : Nat → List Nat) (R : List Nat) :
    ∀ (fuel cur : Nat) (path c : List Nat),
      path.Chain' (fun x y => y ∈ up x) →
      path.getLast? = some cur →
      walkCycle up R fuel cur path = some c → IsCycleList up c := by
  intro fuel
  induction fuel with
  | zero =>
    intro cur path c _ _ hw
    simp [walkCycle] at hw
  | succ fuel ih =>
    intro cur path c hchain hlast hw
    cases hh : ((up cur).filter (fun j => decide (j ∈ R))).head? with
    | none =>
      simp only [walkCycle, hh] at hw
      exact Option.noConfusion hw
    | some nxt =>
      simp only [walkCycle, hh] at hw
      have hnup : nxt ∈ up cur :=
        (List.mem_filter.mp (List.mem_of_mem_head? hh)).1
      by_cases hmem : nxt ∈ path
      · rw [if_pos hmem] at hw
        obtain ⟨t, ht, hsuf⟩ := dropWhile_ne_of_mem nxt path hmem
        rw [ht] at hw
        injection hw with hw
        subst hw
        obtain ⟨pre, hpre⟩ := id hsuf
        have hlast' : (nxt :: t).getLast? = some cur := by
          rw [← hlast, ← hpre]
          exact (List.getLast?_append_of_ne_nil pre (List.cons_ne_nil nxt t)).symm
        refine ⟨List.cons_ne_nil nxt t, hchain.suffix hsuf, ?_⟩
        intro x hx b hb
        have hxe : nxt = x := by simpa using hx
        have hbe : cur = b := by
          rw [hlast'] at hb
          simpa using hb
        rw [← hxe, ← hbe]
        exact hnup
      · rw [if_neg hmem] at hw
        apply ih nxt (path ++ [nxt]) c ?_ ?_ hw
        · rw [List.chain'_append]
          refine ⟨hchain, List.chain'_singleton nxt, ?_⟩
          intro x hx y hy
          have hye : nxt = y := by simpa using hy
          have hxe : cur = x := by
            rw [hlast] at hx
            simpa using hx
          rw [← hxe, ← hye]
          exact hnup
        · rw [List.getLast?_append_of_ne_nil path (List.cons_ne_nil nxt [])]
          rfl

/-- Over a fixed-point vertex set (each member keeps an upstream member),
the walk always terminates with a repeat — and hence a cycle — before its
fuel runs out. -/
theorem walkCycle_complete (up : Nat → List Nat) (R : List Nat) (n : Nat)
    (hfix : ∀ i ∈ R, (up i).filter (fun j => decide (j ∈ R)) ≠ [])
    (hRn : ∀ i ∈ R, i < n) :
    ∀ (fuel : Nat) (path : List Nat) (cur : Nat),
      path.Nodup → (∀ x ∈ path, x ∈ R) → path.getLast? = some cur →
      n + 1 ≤ fuel + path.length →
      ∃ c, walkCycle up R fuel cur path = some c := by
  intro fuel
  induction fuel with
  | zero =>
    intro path cur hnd hsub _ hlen
    exfalso
    have hsubr : path ⊆ List.range n := by
      intro x hx
      exact List.mem_range.mpr (hRn x (hsub x hx))
    have : path.length ≤ n := by
      have := (hnd.subperm hsubr).length_le
      simpa using this
    omega
  | succ fuel ih =>
    intro path cur hnd hsub hlast hlen
    have hcur : cur ∈ path :=
      List.mem_of_mem_getLast? (by rw [hlast]; rfl)
    have hcurR : cur ∈ R := hsub cur hcur
    have hfil := hfix cur hcurR
    obtain ⟨nxt, hh⟩ : ∃ nxt,
        ((up cur).filter (fun j => decide (j ∈ R))).head? = some nxt := by
      cases hfl : (up cur).filter (fun j => decide (j ∈ R)) with
      | nil => exact absurd hfl hfil
      | cons x xs => exact ⟨x, rfl⟩
    have hnR : nxt ∈ R := by
      have := (List.mem_filter.mp (List.mem_of_mem_head? hh)).2
      simpa using this
    by_cases hmem : nxt ∈ path
    · refine ⟨path.dropWhile (fun x => decide (x ≠ nxt)), ?_⟩
      simp only [walkCycle, hh]
      rw [if_pos hmem]
    · obtain ⟨c, hc⟩ := ih (path ++ [nxt]) nxt
        (hnd.append (List.nodup_singleton nxt)
          (fun x hx hx' => by
            have : x = nxt := by simpa using hx'
            exact hmem (this ▸ hx)))
        (by
          intro x hx
          rcases List.mem_append.mp hx with h | h
          · exact hsub x h
          · have : x = nxt := by simpa using h
            exact this ▸ hnR)
        (by
          rw [List.getLast?_append_of_ne_nil path (List.cons_ne_nil nxt [])]
          rfl)
        (by
          rw [List.length_append, List.length_singleton]
          omega)
      refine ⟨c, ?_⟩
      simp only [walkCycle, hh]
      rw [if_neg hmem]
      exact hc

/-- If the upstream relation (with edges only below the vertex count) has
a cycle, detection returns one, and what it returns is a genuine cycle. -/
theorem detectCycle_spec (n : Nat) (up : Nat → List Nat)
    (hbound : ∀ i, n ≤ i → up i = [])
    (c : List Nat) (hc : IsCycleList up c) :
    ∃ c', detectCycle n up = some c' ∧ IsCycleList up c' := by
  have hsubR := cycle_subset_remainder n up hbound c hc
  obtain ⟨r, R', hR⟩ : ∃ r R', remainder n up = r :: R' := by
    cases hrem : remainder n up with
    | nil =>
      exfalso
      rcases c with _ | ⟨x, rest⟩
      · exact hc.1 rfl
      · have := hsubR x (List.mem_cons_self x rest)
        rw [hrem] at this
        cases this
    | cons r R' => exact ⟨r, R', rfl⟩
  have hfix : ∀ i ∈ remainder n up,
      (up i).filter (fun j => decide (j ∈ remainder n up)) ≠ [] := by
    intro i hi
    have hi' : i ∈ aliveStep up (remainder n up) := by
      rw [remainder_fix n up]
      exact hi
    have := (List.mem_filter.mp hi').2
    rw [List.any_eq_true] at this
    obtain ⟨j, hj, hjR⟩ := this
    apply List.ne_nil_of_mem (a := j)
    rw [List.mem_filter]
    exact ⟨hj, hjR⟩
  have hRn : ∀ i ∈ remainder n up, i < n := by
    intro i hi
    have hmem : i ∈ List.range n :=
      (aliveIter_sublist up n (List.range n)).subset hi
    simpa using hmem
  obtain ⟨c', hw⟩ := walkCycle_complete up (remainder n up) n hfix hRn
    (n + 1) [r] r (List.nodup_singleton r)
    (by
      intro x hx
      have : x = r := by simpa using hx
      rw [this, hR]
      exact List.mem_cons_self r R')
    rfl
    (by simp)
  refine ⟨c', ?_,
    walkCycle_sound up (remainder n up) (n + 1) r [r] c'
      (List.chain'_singleton r) rfl hw⟩
  unfold detectCycle
  rw [hR] at hw ⊢
  exact hw

/-- Edges of the built graph emanate only from existing Operations. -/
theorem builtUpstream_bound (decls : BuildDecls) :
    ∀ i, buildN decls ≤ i → builtUpstream decls i = [] := by
  intro i hi
  have h0 : (buildOpKeys decls)[i]? = none := List.getElem?_eq_none hi
  unfold builtUpstream
  simp only [h0]

/-- C8: whenever the declared phase and project dependencies introduce a
cycle into the built Operation graph, construction fails with a
`GraphCycleError` whose path is a genuine cycle of the built dependency
relation, and no graph is ever handed to the executor (zero Operations
execute). -/
theorem graph_construction_cycle_error (decls : BuildDecls)
    (h : ∃ c, IsCycleList (builtUpstream decls) c) :
    ∃ e, constructOperationGraph decls = .error e ∧
      IsCycleList (builtUpstream decls) e.path ∧
      ∀ g, constructOperationGraph decls ≠ .ok g := by
  obtain ⟨c, hc⟩ := h
  obtain ⟨c', hdet, hc'⟩ := detectCycle_spec (buildN decls)
    (builtUpstream decls) (builtUpstream_bound decls) c hc
  refine ⟨⟨c'⟩, ?_, hc', ?_⟩
  · unfold constructOperationGraph
    rw [hdet]
  · intro g
    unfold constructOperationGraph
    rw [hdet]
    simp

/-- Declarations with a same-project phase cycle: phase `build` depends on
phase `test` and phase `test` depends on phase `build`. -/
def cyclicDecls : BuildDecls :=
  ⟨[⟨"build", ["test"], false⟩, ⟨"test", ["build"], false⟩],
   [⟨"app", [], ["build", "test"]⟩]⟩

/-- The two Operations of the cyclic declarations form a cycle of the
built dependency relation. -/
theorem cyclicDecls_has_cycle :
    IsCycleList (builtUpstream cyclicDecls) [0, 1] := by
  refine ⟨by simp, ?_, ?_⟩
  · show List.Chain (fun x y => y ∈ builtUpstream cyclicDecls x) 0 [1]
    refine List.Chain.cons ?_ List.Chain.nil
    decide
  · intro a ha b hb
    have hae : a = 0 := by simpa using ha.symm
    have hbe : b = 1 := by simpa using hb.symm
    rw [hae, hbe]
    decide

/-- Witness for C8 at the cyclic declarations: the built graph has a
cycle, so construction reports a `GraphCycleError` with a genuine cycle
path and hands no graph to the executor. -/
theorem graph_construction_cycle_error_witness :
    ∃ e, constructOperationGraph cyclicDecls = .error e ∧
      IsCycleList (builtUpstream cyclicDecls) e.path ∧
      ∀ g, constructOperationGraph cyclicDecls ≠ .ok g :=
  graph_construction_cycle_error cyclicDecls ⟨[0, 1], cyclicDecls_has_cycle⟩

/-! ## Section 4: OperationExecutor (scheduler) -/

/-- Modelled from the spec: the per-Operation status values of the
scheduler's state machine. -/
inductive OpStatus where
  | ready
  | queued
  | executing
  | success
  | successWithWarnings
  | failure
  | blocked
  | skipped
  | fromCache
  | noOp
deriving Repr, DecidableEq

/-- The successful terminal statuses that unlock downstream Operations:
`Success`, `SuccessWithWarnings`, `FromCache`, `NoOp`. -/
def OpStatus.isSucceeded : OpStatus → Bool
  | .success | .successWithWarnings | .fromCache | .noOp => true
  | _ => false

/-- Statuses an Operation can only hold after having been found ready
(queued) — everything except `ready`, `blocked`, `skipped`. -/
def OpStatus.isQueuedOrLater : OpStatus → Bool
  | .ready | .blocked | .skipped => false
  | _ => true

/-- Terminal statuses: the run is finished for this Operation. -/
def OpStatus.isTerminal : OpStatus → Bool
  | .success | .successWithWarnings | .failure | .skipped
  | .fromCache | .noOp => true
  | _ => false

/-- Statuses implying the Operation was handed to a Runner slot. -/
def OpStatus.isStarted : OpStatus → Bool
  | .executing | .success | .successWithWarnings | .failure
  | .fromCache | .noOp => true
  | _ => false

/-- Modelled from the spec: the outcome an Operation's execution reports —
a Runner result, a cache hit (`FromCache`) or no-op work (`NoOp`). -/
inductive OpOutcome where
  | success
  | successWithWarnings
  | failure
  | fromCache
  | noOp
deriving Repr, DecidableEq

/-- The status recorded for an outcome. -/
def OpOutcome.toStatus : OpOutcome → OpStatus
  | .success => .success
  | .successWithWarnings => .successWithWarnings
  | .failure => .failure
  | .fromCache => .fromCache
  | .noOp => .noOp

/-- Modelled from the spec: the Operation graph the executor walks —
Operations indexed 0..n-1 with their upstream sets. -/
structure ExecGraph where
  n : Nat
  upstream : Nat → List Nat

/-- Well-formed graph: duplicate edges are deduplicated and every edge
endpoint is an Operation. -/
def ExecGraph.WF (g : ExecGraph) : Prop :=
  ∀ i, (g.upstream i).Nodup ∧ ∀ j ∈ g.upstream i, j < g.n

/-- Valid (acyclic) graph: a rank function decreasing along edges. -/
def ExecGraph.Acyclic (g : ExecGraph) : Prop :=
  ∃ rank : Nat → Nat, ∀ i j, j ∈ g.upstream i → rank j < rank i

/-- Modelled from the spec: the executor's mutable state — per-Operation
status, the in-degree counters of unresolved upstream Operations, and
whether each Operation's Runner slot was ever started. -/
structure ExecState where
  status : Nat → OpStatus
  indeg : Nat → Nat
  invoked : Nat → Bool

/-- Initial state: every Operation `Ready`, in-degree the count of its
upstream Operations, no Runner invoked. -/
def initState (g : ExecGraph) : ExecState :=
  ⟨fun _ => .ready, fun i => (g.upstream i).length, fun _ => false⟩

/-- Number of Operations currently `Executing` (the in-flight counter the
concurrency bound compares against). -/
def execCount (g : ExecGraph) (σ : ExecState) : Nat :=
  (List.range g.n).countP (fun k => σ.status k == .executing)

/-- Modelled from the spec: one scheduler transition.  `enqueue` marks an
Operation whose in-degree reached zero as `Queued`; `dispatch` starts a
`Queued` Operation when the in-flight count is below the concurrency
maximum; `complete` records an executing Operation's outcome, and when
the outcome is successful decrements the in-degree of each direct
downstream Operation (a `Failure` decrements nothing — downstream is
blocked instead); `block` marks a `Ready`/`Queued` Operation `Blocked`
when any upstream Operation has terminated as `Failure` or been
blocked/skipped; `skip` retires a `Blocked` Operation as `Skipped`. -/
inductive Step (g : ExecGraph) (env : Nat → OpOutcome) (N : Nat) :
    ExecState → ExecState → Prop where
  | enqueue (σ : ExecState) (i : Nat) :
      i < g.n → σ.status i = .ready → σ.indeg i = 0 →
      Step g env N σ ⟨Function.update σ.status i .queued, σ.indeg, σ.invoked⟩
  | dispatch (σ : ExecState) (i : Nat) :
      i < g.n → σ.status i = .queued → execCount g σ < N →
      Step g env N σ ⟨Function.update σ.status i .executing, σ.indeg,
        Function.update σ.invoked i true⟩
  | complete (σ : ExecState) (i : Nat) :
      i < g.n → σ.status i = .executing →
      Step g env N σ
        ⟨Function.update σ.status i (env i).toStatus,
         if (env i).toStatus.isSucceeded then
           fun j => if i ∈ g.upstream j then σ.indeg j - 1 else σ.indeg j
         else σ.indeg,
         σ.invoked⟩
  | block (σ : ExecState) (i u : Nat) :
      i < g.n → (σ.status i = .ready ∨ σ.status i = .queued) →
      u ∈ g.upstream i →
      (σ.status u = .failure ∨ σ.status u = .blocked ∨ σ.status u = .skipped) →
      Step g env N σ ⟨Function.update σ.status i .blocked, σ.indeg, σ.invoked⟩
  | skip (σ : ExecState) (i : Nat) :
      i < g.n → σ.status i = .blocked →
      Step g env N σ ⟨Function.update σ.status i .skipped, σ.indeg, σ.invoked⟩

/-- States the scheduler can reach from the initial state. -/
inductive Reachable (g : ExecGraph) (env : Nat → OpOutcome) (N : Nat) :
    ExecState → Prop where
  | init : Reachable g env N (initState g)
  | step {σ σ' : ExecState} : Reachable g env N σ → Step g env N σ σ' →
      Reachable g env N σ'

/-- No transition applies: the run is over. -/
def Quiescent (g : ExecGraph) (env : Nat → OpOutcome) (N : Nat)
    (σ : ExecState) : Prop :=
  ∀ σ', ¬ Step g env N σ σ'

/-- `i` is a direct or transitive upstream of `j` (equivalently, `j` is in
`i`'s downstream cone). -/
inductive ReachesDown (g : ExecGraph) : Nat → Nat → Prop where
  | direct {i j : Nat} : i ∈ g.upstream j → ReachesDown g i j
  | tail {i k j : Nat} : ReachesDown g i k → k ∈ g.upstream j →
      ReachesDown g i j

/-! ### Scheduler counting lemmas -/

/-- Counting with pointwise-equal predicates agrees. -/
theorem countP_ext (l : List Nat) (p q : Nat → Bool)
    (h : ∀ b ∈ l, p b = q b) : l.countP p = l.countP q := by
  induction l with
  | nil => rfl
  | cons a tl ih =>
    rw [List.countP_cons, List.countP_cons,
      ih (fun b hb => h b (List.mem_cons_of_mem a hb)),
      h a (List.mem_cons_self a tl)]

/-- Flipping the predicate from true to false at one member of a
duplicate-free list lowers the count by exactly one. -/
theorem countP_decrement (l : List Nat) (hl : l.Nodup) (c : Nat)
    (p q : Nat → Bool) (hc : c ∈ l) (hpc : p c = true) (hqc : q c = false)
    (hrest : ∀ b ∈ l, b ≠ c → p b = q b) :
    l.countP q + 1 = l.countP p := by
  induction l with
  | nil => cases hc
  | cons a tl ih =>
    rw [List.countP_cons, List.countP_cons]
    have hnd₁ : a ∉ tl := (List.nodup_cons.mp hl).1
    have hnd₂ : tl.Nodup := (List.nodup_cons.mp hl).2
    rcases List.mem_cons.mp hc with hca | hctl
    · have hpa : p a = true := hca ▸ hpc
      have hqa : q a = false := hca ▸ hqc
      have heq : tl.countP p = tl.countP q := by
        apply countP_ext
        intro b hb
        exact hrest b (List.mem_cons_of_mem a hb)
          (fun he => hnd₁ ((he.trans hca) ▸ hb))
      rw [hpa, hqa, heq]
      simp
    · have hac : a ≠ c := fun he => hnd₁ (he ▸ hctl)
      have hrec := ih hnd₂ hctl
        (fun b hb hbne => hrest b (List.mem_cons_of_mem a hb) hbne)
      rw [hrest a (List.mem_cons_self a tl) hac]
      omega

/-- Flipping the predicate from false to true at one member of a
duplicate-free list raises the count by exactly one. -/
theorem countP_increment (l : List Nat) (hl : l.Nodup) (c : Nat)
    (p q : Nat → Bool) (hc : c ∈ l) (hpc : p c = false) (hqc : q c = true)
    (hrest : ∀ b ∈ l, b ≠ c → p b = q b) :
    l.countP q = l.countP p + 1 := by
  have := countP_decrement l hl c q p hc hqc hpc
    (fun b hb hbne => (hrest b hb hbne).symm)
  omega

/-! ### Scheduler invariants -/

/-- A status change that stays outside the successful statuses preserves
the in-degree characterization. -/
theorem indeg_count_preserved (g : ExecGraph) (σ : ExecState) (i : Nat)
    (v : OpStatus) (hold : (σ.status i).isSucceeded = false)
    (hnew : v.isSucceeded = false)
    (ih : ∀ k, σ.indeg k =
      (g.upstream k).countP (fun j => !(σ.status j).isSucceeded)) :
    ∀ k, σ.indeg k = (g.upstream k).countP
      (fun j => !((Function.update σ.status i v) j).isSucceeded) := by
  intro k
  rw [ih k]
  apply countP_ext
  intro b _
  by_cases hbi : b = i
  · subst hbi
    rw [Function.update_same, hold, hnew]
  · rw [Function.update_noteq hbi]

/-- In every reachable state, each Operation's in-degree counter equals
the number of its upstream Operations not yet in a successful terminal
state. -/
theorem reachable_indeg (g : ExecGraph) (env : Nat → OpOutcome) (N : Nat)
    (hwf : g.WF) (σ : ExecState) (h : Reachable g env N σ) :
    ∀ i, σ.indeg i =
      (g.upstream i).countP (fun j => !(σ.status j).isSucceeded) := by
  induction h with
  | init =>
    intro i
    show (g.upstream i).length = _
    symm
    rw [List.countP_eq_length]
    intro j _
    rfl
  | step hreach hstep ih =>
    cases hstep with
    | enqueue i hi hst hind =>
      exact indeg_count_preserved g _ i .queued (by rw [hst]; rfl) rfl ih
    | dispatch i hi hst hcnt =>
      exact indeg_count_preserved g _ i .executing (by rw [hst]; rfl) rfl ih
    | block i u hi hst hu hust =>
      refine indeg_count_preserved g _ i .blocked ?_ rfl ih
      rcases hst with hst | hst <;> (rw [hst]; rfl)
    | skip i hi hst =>
      exact indeg_count_preserved g _ i .skipped (by rw [hst]; rfl) rfl ih
    | complete c hc hst =>
      rename_i σ₀
      by_cases hsc : (env c).toStatus.isSucceeded = true
      · intro j
        show (if (env c).toStatus.isSucceeded = true
              then fun k => if c ∈ g.upstream k then σ₀.indeg k - 1 else σ₀.indeg k
              else σ₀.indeg) j =
          (g.upstream j).countP
            (fun k => !((Function.update σ₀.status c (env c).toStatus) k).isSucceeded)
        rw [if_pos hsc]
        by_cases hcj : c ∈ g.upstream j
        · rw [if_pos hcj, ih j]
          have hdec := countP_decrement (g.upstream j) (hwf j).1 c
            (fun k => !(σ₀.status k).isSucceeded)
            (fun k => !((Function.update σ₀.status c (env c).toStatus) k).isSucceeded)
            hcj
            (by
              show (!(σ₀.status c).isSucceeded) = true
              rw [hst]; rfl)
            (by
              show (!((Function.update σ₀.status c (env c).toStatus) c).isSucceeded) = false
              rw [Function.update_same, hsc]; rfl)
            (fun b _ hbne => by
              show (!(σ₀.status b).isSucceeded) =
                (!((Function.update σ₀.status c (env c).toStatus) b).isSucceeded)
              rw [Function.update_noteq hbne])
          omega
        · rw [if_neg hcj, ih j]
          apply countP_ext
          intro b hb
          have hbc : b ≠ c := fun he => hcj (he ▸ hb)
          rw [Function.update_noteq hbc]
      · have hnew : (env c).toStatus.isSucceeded = false :=
          Bool.eq_false_iff.mpr hsc
        intro j
        show (if (env c).toStatus.isSucceeded = true
              then fun k => if c ∈ g.upstream k then σ₀.indeg k - 1 else σ₀.indeg k
              else σ₀.indeg) j =
          (g.upstream j).countP
            (fun k => !((Function.update σ₀.status c (env c).toStatus) k).isSucceeded)
        rw [if_neg hsc]
        exact indeg_count_preserved g σ₀ c (env c).toStatus
          (by rw [hst]; rfl) hnew ih j

/-- A status not yet queued-or-later is `Ready`, `Blocked` or `Skipped`. -/
theorem isQueuedOrLater_false_cases (s : OpStatus)
    (h : s.isQueuedOrLater = false) :
    s = .ready ∨ s = .blocked ∨ s = .skipped := by
  cases s <;> revert h <;> decide

/-- A terminal status that is not successful is `Failure` or `Skipped`. -/
theorem isTerminal_not_succeeded_cases (s : OpStatus)
    (ht : s.isTerminal = true) (hs : s.isSucceeded = false) :
    s = .failure ∨ s = .skipped := by
  cases s <;> revert ht hs <;> decide

/-- Updating the status of an Operation that was not successful preserves
"all upstream Operations successful" for every Operation. -/
theorem upstream_succ_update (g : ExecGraph) (st : Nat → OpStatus) (i : Nat)
    (v : OpStatus) (hold : (st i).isSucceeded = false) (k : Nat)
    (hk : ∀ j ∈ g.upstream k, (st j).isSucceeded = true) :
    ∀ j ∈ g.upstream k, ((Function.update st i v) j).isSucceeded = true := by
  intro j hj
  by_cases hji : j = i
  · subst hji
    rw [hk j hj] at hold
    cases hold
  · rw [Function.update_noteq hji]
    exact hk j hj

/-- In every reachable state, an Operation that has been queued,
dispatched or completed has every upstream Operation in a successful
terminal state. -/
theorem reachable_upstream_succeeded (g : ExecGraph) (env : Nat → OpOutcome)
    (N : Nat) (hwf : g.WF) (σ : ExecState) (h : Reachable g env N σ) :
    ∀ i, (σ.status i).isQueuedOrLater = true →
      ∀ j ∈ g.upstream i, (σ.status j).isSucceeded = true := by
  induction h with
  | init =>
    intro i hqi
    simp [initState, OpStatus.isQueuedOrLater] at hqi
  | step hreach hstep ih =>
    cases hstep with
    | enqueue i hi hst hind =>
      rename_i σ₀
      intro k hk j hj
      show ((Function.update σ₀.status i .queued) j).isSucceeded = true
      by_cases hki : k = i
      · subst hki
        have hcnt := reachable_indeg g env N hwf σ₀ hreach k
        rw [hind] at hcnt
        have hall : ∀ b ∈ g.upstream k, (σ₀.status b).isSucceeded = true := by
          intro b hb
          have hb0 := List.countP_eq_zero.mp hcnt.symm b hb
          simpa using hb0
        exact upstream_succ_update g σ₀.status k .queued
          (by rw [hst]; rfl) k hall j hj
      · have hk' : (σ₀.status k).isQueuedOrLater = true := by
          have he : (Function.update σ₀.status i OpStatus.queued) k =
              σ₀.status k := Function.update_noteq hki _ _
          have hk2 : ((Function.update σ₀.status i OpStatus.queued) k).isQueuedOrLater
              = true := hk
          rwa [he] at hk2
        exact upstream_succ_update g σ₀.status i .queued
          (by rw [hst]; rfl) k (ih k hk') j hj
    | dispatch i hi hst hcnt =>
      rename_i σ₀
      intro k hk j hj
      show ((Function.update σ₀.status i .executing) j).isSucceeded = true
      by_cases hki : k = i
      · subst hki
        have hk' : (σ₀.status k).isQueuedOrLater = true := by
          rw [hst]; rfl
        exact upstream_succ_update g σ₀.status k .executing
          (by rw [hst]; rfl) k (ih k hk') j hj
      · have hk' : (σ₀.status k).isQueuedOrLater = true := by
          have he : (Function.update σ₀.status i OpStatus.executing) k =
              σ₀.status k := Function.update_noteq hki _ _
          have hk2 : ((Function.update σ₀.status i OpStatus.executing) k).isQueuedOrLater
              = true := hk
          rwa [he] at hk2
        exact upstream_succ_update g σ₀.status i .executing
          (by rw [hst]; rfl) k (ih k hk') j hj
    | complete c hc hst =>
      rename_i σ₀
      intro k hk j hj
      show ((Function.update σ₀.status c (env c).toStatus) j).isSucceeded = true
      by_cases hki : k = c
      · subst hki
        have hk' : (σ₀.status k).isQueuedOrLater = true := by
          rw [hst]; rfl
        exact upstream_succ_update g σ₀.status k (env k).toStatus
          (by rw [hst]; rfl) k (ih k hk') j hj
      · have hk' : (σ₀.status k).isQueuedOrLater = true := by
          have he : (Function.update σ₀.status c (env c).toStatus) k =
              σ₀.status k := Function.update_noteq hki _ _
          have hk2 : ((Function.update σ₀.status c (env c).toStatus) k).isQueuedOrLater
              = true := hk
          rwa [he] at hk2
        exact upstream_succ_update g σ₀.status c (env c).toStatus
          (by rw [hst]; rfl) k (ih k hk') j hj
    | block i u hi hst hu hust =>
      rename_i σ₀
      intro k hk j hj
      show ((Function.update σ₀.status i .blocked) j).isSucceeded = true
      by_cases hki : k = i
      · subst hki
        have hk2 : ((Function.update σ₀.status k OpStatus.blocked) k).isQueuedOrLater
            = true := hk
        rw [Function.update_same] at hk2
        cases hk2
      · have hk' : (σ₀.status k).isQueuedOrLater = true := by
          have he : (Function.update σ₀.status i OpStatus.blocked) k =
              σ₀.status k := Function.update_noteq hki _ _
          have hk2 : ((Function.update σ₀.status i OpStatus.blocked) k).isQueuedOrLater
              = true := hk
          rwa [he] at hk2
        have hold : (σ₀.status i).isSucceeded = false := by
          rcases hst with hst | hst <;> (rw [hst]; rfl)
        exact upstream_succ_update g σ₀.status i .blocked hold k (ih k hk') j hj
    | skip i hi hst =>
      rename_i σ₀
      intro k hk j hj
      show ((Function.update σ₀.status i .skipped) j).isSucceeded = true
      by_cases hki : k = i
      · subst hki
        have hk2 : ((Function.update σ₀.status k OpStatus.skipped) k).isQueuedOrLater
            = true := hk
        rw [Function.update_same] at hk2
        cases hk2
      · have hk' : (σ₀.status k).isQueuedOrLater = true := by
          have he : (Function.update σ₀.status i OpStatus.skipped) k =
              σ₀.status k := Function.update_noteq hki _ _
          have hk2 : ((Function.update σ₀.status i OpStatus.skipped) k).isQueuedOrLater
              = true := hk
          rwa [he] at hk2
        exact upstream_succ_update g σ₀.status i .skipped
          (by rw [hst]; rfl) k (ih k hk') j hj

/-- Every outcome's status counts as started. -/
theorem outcome_toStatus_isStarted (o : OpOutcome) :
    o.toStatus.isStarted = true := by
  cases o <;> rfl

/-- No outcome's status is `Executing`. -/
theorem outcome_toStatus_ne_executing (o : OpOutcome) :
    o.toStatus ≠ OpStatus.executing := by
  cases o <;> simp [OpOutcome.toStatus]

/-- In every reachable state, an Operation's Runner slot has been started
exactly when its status shows it was (`Executing` or a completion
outcome); in particular `Ready`/`Queued`/`Blocked`/`Skipped` Operations
have never had their Runner invoked. -/
theorem reachable_invoked (g : ExecGraph) (env : Nat → OpOutcome) (N : Nat)
    (σ : ExecState) (h : Reachable g env N σ) :
    ∀ i, σ.invoked i = (σ.status i).isStarted := by
  induction h with
  | init => intro i; rfl
  | step hreach hstep ih =>
    cases hstep with
    | enqueue i hi hst hind =>
      rename_i σ₀
      intro k
      show σ₀.invoked k = ((Function.update σ₀.status i .queued) k).isStarted
      by_cases hki : k = i
      · subst hki
        rw [Function.update_same, ih k, hst]
        rfl
      · rw [Function.update_noteq hki]
        exact ih k
    | dispatch i hi hst hcnt =>
      rename_i σ₀
      intro k
      show (Function.update σ₀.invoked i true) k =
        ((Function.update σ₀.status i .executing) k).isStarted
      by_cases hki : k = i
      · subst hki
        rw [Function.update_same, Function.update_same]
        rfl
      · rw [Function.update_noteq hki, Function.update_noteq hki]
        exact ih k
    | complete c hc hst =>
      rename_i σ₀
      intro k
      show σ₀.invoked k = ((Function.update σ₀.status c (env c).toStatus) k).isStarted
      by_cases hki : k = c
      · subst hki
        rw [Function.update_same, ih k, hst, outcome_toStatus_isStarted]
        rfl
      · rw [Function.update_noteq hki]
        exact ih k
    | block i u hi hst hu hust =>
      rename_i σ₀
      intro k
      show σ₀.invoked k = ((Function.update σ₀.status i .blocked) k).isStarted
      by_cases hki : k = i
      · subst hki
        rw [Function.update_same, ih k]
        rcases hst with hst | hst <;> (rw [hst]; rfl)
      · rw [Function.update_noteq hki]
        exact ih k
    | skip i hi hst =>
      rename_i σ₀
      intro k
      show σ₀.invoked k = ((Function.update σ₀.status i .skipped) k).isStarted
      by_cases hki : k = i
      · subst hki
        rw [Function.update_same, ih k, hst]
        rfl
      · rw [Function.update_noteq hki]
        exact ih k

/-- In every reachable state, everything downstream of a non-successful
Operation is still `Ready`, or already `Blocked`/`Skipped` — never
queued, executing or completed. -/
theorem nonsucceeded_downstream (g : ExecGraph) (env : Nat → OpOutcome)
    (N : Nat) (hwf : g.WF) (σ : ExecState) (h : Reachable g env N σ)
    (u : Nat) (hu : (σ.status u).isSucceeded = false) :
    ∀ j, ReachesDown g u j →
      σ.status j = .ready ∨ σ.status j = .blocked ∨ σ.status j = .skipped := by
  intro j hr
  induction hr with
  | direct hij =>
    rename_i j'
    by_cases hql : (σ.status j').isQueuedOrLater = true
    · have := reachable_upstream_succeeded g env N hwf σ h j' hql u hij
      rw [this] at hu
      cases hu
    · exact isQueuedOrLater_false_cases _ (Bool.eq_false_iff.mpr hql)
  | tail huk hkj ih =>
    rename_i k j'
    have hksucc : (σ.status k).isSucceeded = false := by
      rcases ih with h' | h' | h' <;> (rw [h']; rfl)
    by_cases hql : (σ.status j').isQueuedOrLater = true
    · have := reachable_upstream_succeeded g env N hwf σ h j' hql k hkj
      rw [this] at hksucc
      cases hksucc
    · exact isQueuedOrLater_false_cases _ (Bool.eq_false_iff.mpr hql)

/-- In a reachable state from which no further transition is possible,
every Operation of an acyclic graph has reached a terminal status (the
scheduler never deadlocks, provided at least one Runner slot exists). -/
theorem quiescent_terminal (g : ExecGraph) (env : Nat → OpOutcome) (N : Nat)
    (hwf : g.WF) (hacyc : g.Acyclic) (hN : 1 ≤ N) (σ : ExecState)
    (hr : Reachable g env N σ) (hq : Quiescent g env N σ) :
    ∀ i, i < g.n → (σ.status i).isTerminal = true := by
  obtain ⟨rank, hrank⟩ := hacyc
  have main : ∀ (r i : Nat), rank i < r → i < g.n →
      (σ.status i).isTerminal = true := by
    intro r
    induction r with
    | zero => intro i h; exact absurd h (Nat.not_lt_zero _)
    | succ r ih =>
      intro i hri hi
      cases hstatus : σ.status i with
      | ready =>
        by_cases hind : σ.indeg i = 0
        · exact absurd (Step.enqueue σ i hi hstatus hind) (hq _)
        · have hcnt := reachable_indeg g env N hwf σ hr i
          have hpos : 0 < (g.upstream i).countP
              (fun j => !(σ.status j).isSucceeded) :=
            Nat.pos_of_ne_zero (fun h0 => hind (hcnt.trans h0))
          obtain ⟨j, hj, hjns⟩ := List.countP_pos_iff.mp hpos
          have hjn : j < g.n := (hwf i).2 j hj
          have hjr : rank j < r := by
            have := hrank i j hj
            omega
          have hjterm := ih j hjr hjn
          have hjsucc : (σ.status j).isSucceeded = false := by
            simpa using hjns
          rcases isTerminal_not_succeeded_cases _ hjterm hjsucc with hjf | hjf
          · exact absurd
              (Step.block σ i j hi (Or.inl hstatus) hj (Or.inl hjf)) (hq _)
          · exact absurd
              (Step.block σ i j hi (Or.inl hstatus) hj (Or.inr (Or.inr hjf)))
              (hq _)
      | queued =>
        by_cases hex : 0 < execCount g σ
        · obtain ⟨k, hkr, hkp⟩ := List.countP_pos_iff.mp hex
          have hkn : k < g.n := List.mem_range.mp hkr
          have hkex : σ.status k = .executing := by
            have := hkp
            simpa [beq_iff_eq] using this
          exact absurd (Step.complete σ k hkn hkex) (hq _)
        · have hlt : execCount g σ < N := by omega
          exact absurd (Step.dispatch σ i hi hstatus hlt) (hq _)
      | executing => exact absurd (Step.complete σ i hi hstatus) (hq _)
      | blocked => exact absurd (Step.skip σ i hi hstatus) (hq _)
      | success => rfl
      | successWithWarnings => rfl
      | failure => rfl
      | skipped => rfl
      | fromCache => rfl
      | noOp => rfl
  intro i hi
  exact main (rank i + 1) i (Nat.lt_succ_self _) hi

/-! ### Claim theorems: scheduler -/

/-- Two independent sibling Operations, no edges. -/
def sibGraph : ExecGraph := ⟨2, fun _ => []⟩

/-- Runner environment in which every Operation succeeds. -/
def allSuccessEnv : Nat → OpOutcome := fun _ => .success

/-- Sibling demonstration, first order: Operation 0 queued. -/
def sibS1a : ExecState :=
  ⟨Function.update (initState sibGraph).status 0 .queued,
   (initState sibGraph).indeg, (initState sibGraph).invoked⟩

/-- Sibling demonstration, first order: Operation 0 executing while 1 is
still ready. -/
def sibS2a : ExecState :=
  ⟨Function.update sibS1a.status 0 .executing, sibS1a.indeg,
   Function.update sibS1a.invoked 0 true⟩

/-- Sibling demonstration, second order: Operation 1 queued. -/
def sibS1b : ExecState :=
  ⟨Function.update (initState sibGraph).status 1 .queued,
   (initState sibGraph).indeg, (initState sibGraph).invoked⟩

/-- Sibling demonstration, second order: Operation 1 executing while 0 is
still ready. -/
def sibS2b : ExecState :=
  ⟨Function.update sibS1b.status 1 .executing, sibS1b.indeg,
   Function.update sibS1b.invoked 1 true⟩

/-- The scheduler may dispatch sibling 0 first. -/
theorem sib_reach_a : Reachable sibGraph allSuccessEnv 2 sibS2a :=
  Reachable.step
    (Reachable.step Reachable.init
      (Step.enqueue (initState sibGraph) 0 (by decide) rfl rfl))
    (Step.dispatch sibS1a 0 (by decide) (by decide) (by decide))

/-- The scheduler may equally dispatch sibling 1 first. -/
theorem sib_reach_b : Reachable sibGraph allSuccessEnv 2 sibS2b :=
  Reachable.step
    (Reachable.step Reachable.init
      (Step.enqueue (initState sibGraph) 1 (by decide) rfl rfl))
    (Step.dispatch sibS1b 1 (by decide) (by decide) (by decide))

/-- C1: in every reachable state of every run over every graph, an
Operation that is `Executing` has every Operation of its upstream set in
a successful terminal state (`Success`, `SuccessWithWarnings`,
`FromCache` or `NoOp`) — and this is the sole ordering guarantee: among
mutually ready siblings either dispatch order is reachable. -/
theorem scheduler_topological_soundness (g : ExecGraph)
    (env : Nat → OpOutcome) (N : Nat) (hwf : g.WF) (σ : ExecState)
    (h : Reachable g env N σ) (i : Nat) (hex : σ.status i = .executing) :
    (∀ j ∈ g.upstream i, (σ.status j).isSucceeded = true) ∧
    (∃ σ₁ σ₂ : ExecState,
      Reachable sibGraph allSuccessEnv 2 σ₁ ∧
      Reachable sibGraph allSuccessEnv 2 σ₂ ∧
      σ₁.status 0 = .executing ∧ σ₁.status 1 = .ready ∧
      σ₂.status 1 = .executing ∧ σ₂.status 0 = .ready) := by
  constructor
  · exact reachable_upstream_succeeded g env N hwf σ h i (by rw [hex]; rfl)
  · exact ⟨sibS2a, sibS2b, sib_reach_a, sib_reach_b,
      by decide, by decide, by decide, by decide⟩

/-- Two-Operation chain used for the C1 witness: Operation 1 depends on
Operation 0. -/
def wGraph : ExecGraph :=
  ⟨2, fun i => match i with
    | 1 => [0]
    | _ => []⟩

/-- The chain graph is well-formed. -/
theorem wGraph_wf : wGraph.WF := by
  intro i
  match i with
  | 0 => exact ⟨by decide, by decide⟩
  | 1 => exact ⟨by decide, by decide⟩
  | (n + 2) => exact ⟨List.nodup_nil, fun j hj => absurd hj (List.not_mem_nil j)⟩

/-- Chain run: Operation 0 queued. -/
def wS1 : ExecState :=
  ⟨Function.update (initState wGraph).status 0 .queued,
   (initState wGraph).indeg, (initState wGraph).invoked⟩

/-- Chain run: Operation 0 executing. -/
def wS2 : ExecState :=
  ⟨Function.update wS1.status 0 .executing, wS1.indeg,
   Function.update wS1.invoked 0 true⟩

/-- Chain run: Operation 0 completed successfully, unlocking 1. -/
def wS3 : ExecState :=
  ⟨Function.update wS2.status 0 (allSuccessEnv 0).toStatus,
   if (allSuccessEnv 0).toStatus.isSucceeded then
     fun j => if 0 ∈ wGraph.upstream j then wS2.indeg j - 1 else wS2.indeg j
   else wS2.indeg,
   wS2.invoked⟩

/-- Chain run: Operation 1 queued. -/
def wS4 : ExecState :=
  ⟨Function.update wS3.status 1 .queued, wS3.indeg, wS3.invoked⟩

/-- Chain run: Operation 1 executing after its upstream succeeded. -/
def wS5 : ExecState :=
  ⟨Function.update wS4.status 1 .executing, wS4.indeg,
   Function.update wS4.invoked 1 true⟩

/-- The chain run is a genuine scheduler run (with one Runner slot). -/
theorem wReach5 : Reachable wGraph allSuccessEnv 1 wS5 :=
  Reachable.step
    (Reachable.step
      (Reachable.step
        (Reachable.step
          (Reachable.step Reachable.init
            (Step.enqueue (initState wGraph) 0 (by decide) rfl rfl))
          (Step.dispatch wS1 0 (by decide) (by decide) (by decide)))
        (Step.complete wS2 0 (by decide) (by decide)))
      (Step.enqueue wS3 1 (by decide) (by decide) (by decide)))
    (Step.dispatch wS4 1 (by decide) (by decide) (by decide))

/-- Witness for C1: in the concrete chain run, Operation 1 is executing
and its upstream Operation 0 is in a successful terminal state. -/
theorem scheduler_topological_soundness_witness :
    wS5.status 1 = OpStatus.executing ∧
    ∀ j ∈ wGraph.upstream 1, (wS5.status j).isSucceeded = true :=
  ⟨by decide,
   (scheduler_topological_soundness wGraph allSuccessEnv 1 wGraph_wf wS5
     wReach5 1 (by decide)).1⟩

/-- No outcome's status is `Skipped` — only blocked Operations skip. -/
theorem outcome_toStatus_ne_skipped (o : OpOutcome) :
    o.toStatus ≠ OpStatus.skipped := by
  cases o <;> simp [OpOutcome.toStatus]

/-- C2: at the end of a completed run (quiescent reachable state) of a
valid graph, every direct and transitive downstream Operation of a
`Failure`-terminated Operation ends `Skipped`, its Runner was never
invoked, and the only transition producing `Skipped` comes out of
`Blocked` — downstream Operations of a failure are marked `Blocked` and
end as `Skipped`. -/
theorem failure_cascade (g : ExecGraph) (env : Nat → OpOutcome) (N : Nat)
    (hwf : g.WF) (hacyc : g.Acyclic) (hN : 1 ≤ N) (σ : ExecState)
    (hr : Reachable g env N σ) (hq : Quiescent g env N σ)
    (i j : Nat) (hj : j < g.n) (hfail : σ.status i = .failure)
    (hdown : ReachesDown g i j) :
    σ.status j = .skipped ∧ σ.invoked j = false ∧
    (∀ σ₁ σ₂, Step g env N σ₁ σ₂ → σ₂.status j = .skipped →
      σ₁.status j ≠ .skipped → σ₁.status j = .blocked) := by
  have hdowncase := nonsucceeded_downstream g env N hwf σ hr i
    (by rw [hfail]; rfl) j hdown
  have hterm := quiescent_terminal g env N hwf hacyc hN σ hr hq j hj
  have hskip : σ.status j = .skipped := by
    rcases hdowncase with h' | h' | h'
    · rw [h'] at hterm; cases hterm
    · rw [h'] at hterm; cases hterm
    · exact h'
  refine ⟨hskip, ?_, ?_⟩
  · rw [reachable_invoked g env N σ hr j, hskip]
    rfl
  · intro σ₁ σ₂ hs h2 h1
    cases hs with
    | enqueue k hk hst hind =>
      by_cases hjk : j = k
      · subst hjk
        have : ((Function.update σ₁.status j OpStatus.queued) j) =
            OpStatus.skipped := h2
        rw [Function.update_same] at this
        cases this
      · have : ((Function.update σ₁.status k OpStatus.queued) j) =
            OpStatus.skipped := h2
        rw [Function.update_noteq hjk] at this
        exact absurd this h1
    | dispatch k hk hst hcnt =>
      by_cases hjk : j = k
      · subst hjk
        have : ((Function.update σ₁.status j OpStatus.executing) j) =
            OpStatus.skipped := h2
        rw [Function.update_same] at this
        cases this
      · have : ((Function.update σ₁.status k OpStatus.executing) j) =
            OpStatus.skipped := h2
        rw [Function.update_noteq hjk] at this
        exact absurd this h1
    | complete k hk hst =>
      by_cases hjk : j = k
      · subst hjk
        have : ((Function.update σ₁.status j (env j).toStatus) j) =
            OpStatus.skipped := h2
        rw [Function.update_same] at this
        exact absurd this (outcome_toStatus_ne_skipped _)
      · have : ((Function.update σ₁.status k (env k).toStatus) j) =
            OpStatus.skipped := h2
        rw [Function.update_noteq hjk] at this
        exact absurd this h1
    | block k u hk hst hu hust =>
      by_cases hjk : j = k
      · subst hjk
        have : ((Function.update σ₁.status j OpStatus.blocked) j) =
            OpStatus.skipped := h2
        rw [Function.update_same] at this
        cases this
      · have : ((Function.update σ₁.status k OpStatus.blocked) j) =
            OpStatus.skipped := h2
        rw [Function.update_noteq hjk] at this
        exact absurd this h1
    | skip k hk hst =>
      by_cases hjk : j = k
      · subst hjk
        exact hst
      · have : ((Function.update σ₁.status k OpStatus.skipped) j) =
            OpStatus.skipped := h2
        rw [Function.update_noteq hjk] at this
        exact absurd this h1

/-- Three-Operation chain A → B → C for the C2 witness: Operation 1
depends on 0, Operation 2 depends on 1. -/
def cGraph : ExecGraph :=
  ⟨3, fun i => match i with
    | 1 => [0]
    | 2 => [1]
    | _ => []⟩

/-- Environment in which Operation 0's Runner reports `Failure`. -/
def cEnv : Nat → OpOutcome := fun i =>
  match i with
  | 0 => .failure
  | _ => .success

/-- The chain is well-formed. -/
theorem cGraph_wf : cGraph.WF := by
  intro i
  match i with
  | 0 => exact ⟨by decide, by decide⟩
  | 1 => exact ⟨by decide, by decide⟩
  | 2 => exact ⟨by decide, by decide⟩
  | (n + 3) => exact ⟨List.nodup_nil, fun j hj => absurd hj (List.not_mem_nil j)⟩

/-- The chain is acyclic: the index itself ranks it. -/
theorem cGraph_acyclic : cGraph.Acyclic := by
  refine ⟨fun i => i, ?_⟩
  intro i j hj
  match i with
  | 0 => exact absurd hj (List.not_mem_nil j)
  | 1 =>
    have hj' : j ∈ [0] := hj
    have hje : j = 0 := by simpa using hj'
    subst hje
    decide
  | 2 =>
    have hj' : j ∈ [1] := hj
    have hje : j = 1 := by simpa using hj'
    subst hje
    decide
  | (n + 3) => exact absurd hj (List.not_mem_nil j)

/-- Operation 2 is transitively downstream of Operation 0 in the chain. -/
theorem cGraph_down02 : ReachesDown cGraph 0 2 := by
  have h1 : (0 : Nat) ∈ cGraph.upstream 1 := by decide
  have h2 : (1 : Nat) ∈ cGraph.upstream 2 := by decide
  exact ReachesDown.tail (ReachesDown.direct h1) h2

/-- Chain run: Operation 0 queued. -/
def cS1 : ExecState :=
  ⟨Function.update (initState cGraph).status 0 .queued,
   (initState cGraph).indeg, (initState cGraph).invoked⟩

/-- Chain run: Operation 0 executing. -/
def cS2 : ExecState :=
  ⟨Function.update cS1.status 0 .executing, cS1.indeg,
   Function.update cS1.invoked 0 true⟩

/-- Chain run: Operation 0's Runner reported `Failure`; no in-degrees are
decremented. -/
def cS3 : ExecState :=
  ⟨Function.update cS2.status 0 (cEnv 0).toStatus,
   if (cEnv 0).toStatus.isSucceeded then
     fun j => if 0 ∈ cGraph.upstream j then cS2.indeg j - 1 else cS2.indeg j
   else cS2.indeg,
   cS2.invoked⟩

/-- Chain run: Operation 1 blocked by its failed upstream. -/
def cS4 : ExecState :=
  ⟨Function.update cS3.status 1 .blocked, cS3.indeg, cS3.invoked⟩

/-- Chain run: Operation 1 skipped. -/
def cS5 : ExecState :=
  ⟨Function.update cS4.status 1 .skipped, cS4.indeg, cS4.invoked⟩

/-- Chain run: Operation 2 blocked by its skipped upstream. -/
def cS6 : ExecState :=
  ⟨Function.update cS5.status 2 .blocked, cS5.indeg, cS5.invoked⟩

/-- Chain run: Operation 2 skipped; the run is over. -/
def cS7 : ExecState :=
  ⟨Function.update cS6.status 2 .skipped, cS6.indeg, cS6.invoked⟩

/-- The failing chain run is a genuine scheduler run. -/
theorem cReach7 : Reachable cGraph cEnv 1 cS7 :=
  Reachable.step
    (Reachable.step
      (Reachable.step
        (Reachable.step
          (Reachable.step
            (Reachable.step
              (Reachable.step Reachable.init
                (Step.enqueue (initState cGraph) 0 (by decide) rfl rfl))
              (Step.dispatch cS1 0 (by decide) (by decide) (by decide)))
            (Step.complete cS2 0 (by decide) (by decide)))
          (Step.block cS3 1 0 (by decide) (Or.inl (by decide)) (by decide)
            (Or.inl (by decide))))
        (Step.skip cS4 1 (by decide) (by decide)))
      (Step.block cS5 2 1 (by decide) (Or.inl (by decide)) (by decide)
        (Or.inr (Or.inr (by decide)))))
    (Step.skip cS6 2 (by decide) (by decide))

/-- After the failing chain run nothing can move any more. -/
theorem cS7_quiescent : Quiescent cGraph cEnv 1 cS7 := by
  intro σ' hs
  cases hs with
  | enqueue i hi hst hind =>
    have h3 : cGraph.n = 3 := rfl
    have hc : i = 0 ∨ i = 1 ∨ i = 2 := by omega
    rcases hc with h | h | h <;> (subst h; exact absurd hst (by decide))
  | dispatch i hi hst hcnt =>
    have h3 : cGraph.n = 3 := rfl
    have hc : i = 0 ∨ i = 1 ∨ i = 2 := by omega
    rcases hc with h | h | h <;> (subst h; exact absurd hst (by decide))
  | complete i hi hst =>
    have h3 : cGraph.n = 3 := rfl
    have hc : i = 0 ∨ i = 1 ∨ i = 2 := by omega
    rcases hc with h | h | h <;> (subst h; exact absurd hst (by decide))
  | block i u hi hst hu hust =>
    have h3 : cGraph.n = 3 := rfl
    have hc : i = 0 ∨ i = 1 ∨ i = 2 := by omega
    rcases hst with hst | hst <;>
      (rcases hc with h | h | h <;> (subst h; exact absurd hst (by decide)))
  | skip i hi hst =>
    have h3 : cGraph.n = 3 := rfl
    have hc : i = 0 ∨ i = 1 ∨ i = 2 := by omega
    rcases hc with h | h | h <;> (subst h; exact absurd hst (by decide))

/-- Witness for C2 at the A → B → C chain with A failing: C (and likewise
B) ends `Skipped`, its Runner never invoked, and `Skipped` only ever
arises out of `Blocked`. -/
theorem failure_cascade_witness :
    cS7.status 0 = OpStatus.failure ∧
    cS7.status 1 = OpStatus.skipped ∧ cS7.invoked 1 = false ∧
    (cS7.status 2 = OpStatus.skipped ∧ cS7.invoked 2 = false ∧
      ∀ σ₁ σ₂, Step cGraph cEnv 1 σ₁ σ₂ → σ₂.status 2 = .skipped →
        σ₁.status 2 ≠ .skipped → σ₁.status 2 = .blocked) :=
  ⟨by decide, by decide, by decide,
   failure_cascade cGraph cEnv 1 cGraph_wf cGraph_acyclic (by decide) cS7
     cReach7 cS7_quiescent 0 2 (by decide) (by decide) cGraph_down02⟩

/-- A status change between two non-`Executing` statuses leaves the
in-flight count unchanged. -/
theorem execCount_update_ne (g : ExecGraph) (σ : ExecState) (i : Nat)
    (v : OpStatus) (hold : σ.status i ≠ .executing) (hnew : v ≠ .executing)
    (indeg2 : Nat → Nat) (invoked2 : Nat → Bool) :
    execCount g ⟨Function.update σ.status i v, indeg2, invoked2⟩ =
      execCount g σ := by
  unfold execCount
  apply countP_ext
  intro b _
  show ((Function.update σ.status i v) b == OpStatus.executing) =
    (σ.status b == OpStatus.executing)
  by_cases hbi : b = i
  · subst hbi
    rw [Function.update_same]
    simp [beq_iff_eq, hold, hnew]
  · rw [Function.update_noteq hbi]

/-- Dispatching an Operation raises the in-flight count by exactly one. -/
theorem execCount_dispatch_eq (g : ExecGraph) (σ : ExecState) (i : Nat)
    (hi : i < g.n) (hst : σ.status i = .queued) :
    execCount g ⟨Function.update σ.status i .executing, σ.indeg,
        Function.update σ.invoked i true⟩ =
      execCount g σ + 1 := by
  unfold execCount
  apply countP_increment (List.range g.n) (List.nodup_range g.n) i
  · exact List.mem_range.mpr hi
  · show (σ.status i == OpStatus.executing) = false
    rw [hst]
    rfl
  · show ((Function.update σ.status i OpStatus.executing) i ==
      OpStatus.executing) = true
    rw [Function.update_same]
    rfl
  · intro b _ hbne
    show (σ.status b == OpStatus.executing) =
      ((Function.update σ.status i OpStatus.executing) b == OpStatus.executing)
    rw [Function.update_noteq hbne]

/-- Retiring an executing Operation lowers the in-flight count by exactly
one. -/
theorem execCount_retire_eq (g : ExecGraph) (σ : ExecState) (c : Nat)
    (v : OpStatus) (hc : c < g.n) (hst : σ.status c = .executing)
    (hv : v ≠ .executing) (indeg2 : Nat → Nat) (invoked2 : Nat → Bool) :
    execCount g ⟨Function.update σ.status c v, indeg2, invoked2⟩ + 1 =
      execCount g σ := by
  unfold execCount
  apply countP_decrement (List.range g.n) (List.nodup_range g.n) c
  · exact List.mem_range.mpr hc
  · show (σ.status c == OpStatus.executing) = true
    rw [hst]
    rfl
  · show ((Function.update σ.status c v) c == OpStatus.executing) = false
    rw [Function.update_same]
    simp [beq_iff_eq, hv]
  · intro b _ hbne
    show (σ.status b == OpStatus.executing) =
      ((Function.update σ.status c v) b == OpStatus.executing)
    rw [Function.update_noteq hbne]

/-- C7: in every reachable state the number of concurrently executing
Runners never exceeds the configured maximum N, and whenever a slot is
free (fewer than N executing) any queued Operation can be dispatched
at once — the scheduler never has to wait for other in-flight
Operations. -/
theorem concurrency_bound (g : ExecGraph) (env : Nat → OpOutcome) (N : Nat)
    (σ : ExecState) (h : Reachable g env N σ) :
    execCount g σ ≤ N ∧
    (∀ i, i < g.n → σ.status i = .queued → execCount g σ < N →
      Step g env N σ ⟨Function.update σ.status i .executing, σ.indeg,
        Function.update σ.invoked i true⟩) := by
  constructor
  · induction h with
    | init =>
      have h0 : execCount g (initState g) = 0 := by
        unfold execCount
        rw [List.countP_eq_zero]
        intro a _
        show ¬ ((fun _ => OpStatus.ready) a == OpStatus.executing) = true
        simp
      omega
    | step hreach hstep ih =>
      cases hstep with
      | enqueue i hi hst hind =>
        rename_i σ₀
        rw [execCount_update_ne g σ₀ i .queued (by rw [hst]; simp) (by simp)]
        exact ih
      | dispatch i hi hst hcnt =>
        rename_i σ₀
        rw [execCount_dispatch_eq g σ₀ i hi hst]
        omega
      | complete c hc hst =>
        rename_i σ₀
        have := execCount_retire_eq g σ₀ c (env c).toStatus hc hst
          (outcome_toStatus_ne_executing (env c))
          (if (env c).toStatus.isSucceeded then
            fun j => if c ∈ g.upstream j then σ₀.indeg j - 1 else σ₀.indeg j
           else σ₀.indeg) σ₀.invoked
        omega
      | block i u hi hst hu hust =>
        rename_i σ₀
        have hold : σ₀.status i ≠ .executing := by
          rcases hst with hst | hst <;> (rw [hst]; simp)
        rw [execCount_update_ne g σ₀ i .blocked hold (by simp)]
        exact ih
      | skip i hi hst =>
        rename_i σ₀
        rw [execCount_update_ne g σ₀ i .skipped (by rw [hst]; simp) (by simp)]
        exact ih
  · intro i hi hst hcnt
    exact Step.dispatch σ i hi hst hcnt

/-- Witness for C7: in the sibling run with one Operation executing and
maximum 2, the bound holds, and the still-queued state obtained by
enqueueing the free sibling can be dispatched immediately. -/
theorem concurrency_bound_witness :
    execCount sibGraph sibS2a ≤ 2 ∧
    (∀ i, i < sibGraph.n → sibS2a.status i = .queued →
      execCount sibGraph sibS2a < 2 →
      Step sibGraph allSuccessEnv 2 sibS2a
        ⟨Function.update sibS2a.status i .executing, sibS2a.indeg,
          Function.update sibS2a.invoked i true⟩) :=
  concurrency_bound sibGraph allSuccessEnv 2 sibS2a sib_reach_a
